import Mathlib

/-!
Verification of the template-resolution and package.json-patching core of the
react-extras scaffolding CLI.

The development shallowly embeds the TypeScript sources:
  * `src/templates.ts`  — the template-group registry (`TEMPLATE_GROUPS`),
    context type, content resolvers and manifest-mod declarations;
  * `src/files.ts`      — `resolveGroups`, `getRequiredPackages`,
    `getPackageJsonMods`;
  * `src/package-json.ts` — `readPackageJson` / `updatePackageJson`.

JavaScript objects used as string-keyed records are embedded as ordered
association lists (JS objects preserve insertion order for string keys);
`jsGet` is property lookup, `jsSet` is property assignment.  JS truthiness of
an optional string property (`!pkg.scripts?.[key]`) is `truthyStr`.  The two
filesystem probes that influence resolution (`existsSync(join(cwd, "src"))`)
are modelled as the context field `srcExists`; generator functions producing
file bytes are opaque external collaborators and are carried as tags.
-/

/-- JSON values as stored in a parsed package.json (only the shapes the
program manipulates: strings, objects, arrays, booleans, numbers, null). -/
inductive Json where
  | str  : String → Json
  | num  : Int → Json
  | bool : Bool → Json
  | null : Json
  | arr  : List Json → Json
  | obj  : List (String × Json) → Json

/-- JS property read on a string-keyed record: the value at the first
occurrence of the key, if any. -/
def jsGet {α : Type} (l : List (String × α)) (k : String) : Option α :=
  (l.find? (fun p => p.1 == k)).map (fun p => p.2)

/-- JS property assignment: if the key is present its value is replaced in
place, otherwise the pair is appended (JS insertion-order semantics). -/
def jsSet {α : Type} (l : List (String × α)) (k : String) (v : α) :
    List (String × α) :=
  if (jsGet l k).isSome then
    l.map (fun p => if p.1 == k then (k, v) else p)
  else
    l ++ [(k, v)]

/-- JS truthiness of `record?.[key]` when values are strings: `undefined`
and the empty string are falsy, every other string is truthy. -/
def truthyStr : Option String → Bool
  | none => false
  | some s => s != ""

/-- Package managers recognised by the detector (detect-pm.ts). -/
inductive PM where
  | bun | pnpm | yarn | npm
deriving DecidableEq, Repr

/-- Lint/format tooling kinds (detect-tooling.ts). -/
inductive Tooling where
  | biome | eslintPrettier
deriving DecidableEq, Repr

/-- Frameworks recognised by the detector (detect-framework.ts). -/
inductive Framework where
  | nextjs | viteTanstackRouter
deriving DecidableEq, Repr

/-- GeneratorContext (templates.ts).  The working directory enters template
resolution only through the probe `existsSync(join(cwd, "src"))`, embedded
here as the field `srcExists`. -/
structure Ctx where
  srcExists : Bool
  pm : PM
  tooling : Tooling
  framework : Framework
deriving DecidableEq, Repr

/-- getCheckScript (generators.ts). -/
def getCheckScript (tooling : Tooling) : String :=
  match tooling with
  | .biome => "biome check ."
  | .eslintPrettier => "eslint . && prettier --check ."

/-- getLintStagedConfig (detect-tooling.ts). -/
def getLintStagedConfig (tooling : Tooling) : Json :=
  match tooling with
  | .biome => .obj [("*", .str "biome check --write --no-errors-on-unmatched")]
  | .eslintPrettier =>
      .obj [("*.{js,jsx,ts,tsx,css,md}", .str "prettier --write"),
            ("*.{js,jsx,ts,tsx}", .str "eslint")]

/-- ContentResolver (templates.ts): static template asset, or a dynamic
generator.  Generator bodies produce opaque file bytes and are identified
here by a tag naming the generator function used in the source. -/
inductive ContentResolver where
  | static  : String → ContentResolver
  | dynamic : String → ContentResolver
deriving DecidableEq, Repr

/-- A target path that is either a literal or a function of the context
(union type of TemplateFileDefinition.targetPath). -/
inductive TPath where
  | lit : String → TPath
  | fn  : (Ctx → String) → TPath

/-- Evaluation of a target path, mirroring
`typeof def.targetPath === "function" ? def.targetPath(ctx) : def.targetPath`. -/
def TPath.eval : TPath → Ctx → String
  | .lit s, _ => s
  | .fn f, ctx => f ctx

/-- TemplateFileDefinition (templates.ts). -/
structure TemplateFileDefinition where
  targetPath : TPath
  content : ContentResolver
  whenCond : Option (Ctx → Bool)

/-- PackageJsonMods (templates.ts): optional proposed scripts and optional
proposed top-level config entries, each an insertion-ordered record. -/
structure PackageJsonMods where
  scripts : Option (List (String × String))
  config : Option (List (String × Json))

/-- The union type `PackageJsonMods | ((ctx) => PackageJsonMods)`. -/
inductive PJSource where
  | lit : PackageJsonMods → PJSource
  | fn  : (Ctx → PackageJsonMods) → PJSource

/-- Evaluation of a packageJson declaration, mirroring
`typeof group.packageJson === "function" ? group.packageJson(ctx) : group.packageJson`. -/
def PJSource.eval : PJSource → Ctx → PackageJsonMods
  | .lit m, _ => m
  | .fn f, ctx => f ctx

/-- TemplateGroup (templates.ts). -/
structure TemplateGroup where
  label : String
  files : List TemplateFileDefinition
  packages : Option (List String)
  packageJson : Option PJSource

/-- TEMPLATE_GROUPS (templates.ts), embedded declaration by declaration in
source order. -/
def TEMPLATE_GROUPS : List TemplateGroup :=
  [ { label := "Deployment + CI/CD"
      files :=
        [ { targetPath := .lit "Dockerfile"
            content := .dynamic "generateDockerfile"
            whenCond := none },
          { targetPath := .lit ".github/workflows/deploy.yml"
            content := .dynamic "generateDeployYml"
            whenCond := none },
          { targetPath := .lit "nginx.conf"
            content := .static "nginx.conf"
            whenCond := some (fun ctx => ctx.framework != Framework.nextjs) } ]
      packages := none
      packageJson := some (.fn (fun ctx =>
        { scripts := some [("check", getCheckScript ctx.tooling),
                           ("typecheck", "tsc --noEmit")]
          config := none })) },
    { label := "Editor Setup"
      files :=
        [ { targetPath := .lit ".editorconfig"
            content := .static "editorconfig"
            whenCond := none },
          { targetPath := .lit ".vscode/extensions.json"
            content := .dynamic "generateExtensionsJson"
            whenCond := none },
          { targetPath := .lit ".zed/settings.json"
            content := .static "zed-settings.json"
            whenCond := some (fun ctx => ctx.tooling == Tooling.biome) } ]
      packages := none
      packageJson := none },
    { label := "Pre-commit Hook"
      files :=
        [ { targetPath := .lit ".husky/pre-commit"
            content := .dynamic "generatePreCommitHook"
            whenCond := none } ]
      packages := some ["husky", "lint-staged"]
      packageJson := some (.fn (fun ctx =>
        { scripts := some [("prepare", "husky")]
          config := some [("lint-staged", getLintStagedConfig ctx.tooling)] })) },
    { label := "API Client"
      files :=
        [ { targetPath := .fn (fun ctx =>
              if ctx.srcExists then "src/lib/api-client.ts"
              else "lib/api-client.ts")
            content := .static "lib/api-client.ts"
            whenCond := none },
          { targetPath := .fn (fun ctx =>
              if ctx.srcExists then "src/lib/config.ts"
              else "lib/config.ts")
            content := .dynamic "generateConfigTs"
            whenCond := none } ]
      packages := none
      packageJson := none } ]

/-- ResolvedFile (files.ts). -/
structure ResolvedFile where
  targetPath : String
  content : ContentResolver
deriving DecidableEq, Repr

/-- ResolvedGroup (files.ts).  `packages` is `group.packages ?? []`. -/
structure ResolvedGroup where
  label : String
  hint : String
  files : List ResolvedFile
  packages : List String
  packageJson : Option PJSource

/-- The inner loop of resolveGroups (files.ts lines 45-56): filter each
definition by its inclusion predicate and evaluate its target path. -/
def resolveFiles (defs : List TemplateFileDefinition) (ctx : Ctx) :
    List ResolvedFile :=
  defs.filterMap (fun d =>
    match d.whenCond with
    | some w =>
        if w ctx then some { targetPath := d.targetPath.eval ctx
                             content := d.content }
        else none
    | none => some { targetPath := d.targetPath.eval ctx
                     content := d.content })

/-- resolveGroups (files.ts lines 41-70), generalised over the registry it
walks; groups whose resolved file list is empty are skipped. -/
def resolveGroupsAux (gs : List TemplateGroup) (ctx : Ctx) :
    List ResolvedGroup :=
  gs.filterMap (fun g =>
    let files := resolveFiles g.files ctx
    if files.isEmpty then none
    else some { label := g.label
                hint := String.intercalate ", " (files.map (fun f => f.targetPath))
                files := files
                packages := g.packages.getD []
                packageJson := g.packageJson })

/-- resolveGroups applied to the actual registry. -/
def resolveGroups (ctx : Ctx) : List ResolvedGroup :=
  resolveGroupsAux TEMPLATE_GROUPS ctx

/-- One `deps.add(pkg)` step of getRequiredPackages: JS Set insertion keeps
the first occurrence and its position. -/
def insReq (acc : List String) (x : String) : List String :=
  if acc.contains x then acc else acc ++ [x]

/-- getRequiredPackages (files.ts lines 113-121): iterate the supplied groups
in order, adding each declared package to an insertion-ordered set. -/
def getRequiredPackages (groups : List ResolvedGroup) : List String :=
  groups.foldl (fun deps g => g.packages.foldl insReq deps) []

/-- ResolvedPackageJsonMods (files.ts). -/
structure ResolvedPackageJsonMods where
  scripts : List (String × String)
  config : List (String × Json)

/-- One `if (!(key in acc)) acc[key] = value` step of getPackageJsonMods. -/
def insertAbsent {α : Type} (acc : List (String × α)) (kv : String × α) :
    List (String × α) :=
  if (jsGet acc kv.1).isSome then acc else acc ++ [kv]

/-- The per-group body of getPackageJsonMods: skip groups without a
packageJson declaration, evaluate the declaration once, then insert the
proposed scripts and config entries that are not yet present. -/
def pjStep (ctx : Ctx) (acc : ResolvedPackageJsonMods) (g : ResolvedGroup) :
    ResolvedPackageJsonMods :=
  match g.packageJson with
  | none => acc
  | some src =>
      let mods := src.eval ctx
      let scripts :=
        match mods.scripts with
        | none => acc.scripts
        | some l => l.foldl insertAbsent acc.scripts
      let config :=
        match mods.config with
        | none => acc.config
        | some l => l.foldl insertAbsent acc.config
      { scripts := scripts, config := config }

/-- getPackageJsonMods (files.ts lines 123-156): walk the supplied groups in
order, accumulating proposed scripts and config entries first-come-first-kept. -/
def getPackageJsonMods (groups : List ResolvedGroup) (ctx : Ctx) :
    ResolvedPackageJsonMods :=
  groups.foldl (pjStep ctx) { scripts := [], config := [] }

/-- The parsed manifest (package-json.ts): the optional `scripts` record and
the remaining top-level entries in order. -/
structure PackageJson where
  scripts : Option (List (String × String))
  rest : List (String × Json)

/-- `pkg.scripts?.[k]`. -/
def scriptsGet (pkg : PackageJson) (k : String) : Option String :=
  pkg.scripts.bind (fun m => jsGet m k)

/-- `k in pkg` for a top-level key: the key names an existing `scripts`
record or one of the other top-level entries. -/
def keyInPkg (pkg : PackageJson) (k : String) : Bool :=
  (k == "scripts" && pkg.scripts.isSome) || (jsGet pkg.rest k).isSome

/-- Loop body of the scripts pass of updatePackageJson (package-json.ts
lines 42-49): state is (manifest, added descriptors, changed flag). -/
def scriptStep (st : PackageJson × List String × Bool) (e : String × String) :
    PackageJson × List String × Bool :=
  let (pkg, added, changed) := st
  if truthyStr (scriptsGet pkg e.1) then (pkg, added, changed)
  else
    let m := pkg.scripts.getD []
    ({ pkg with scripts := some (jsSet m e.1 e.2) },
     added ++ [e.1 ++ " script"], true)

/-- Loop body of the config pass of updatePackageJson (package-json.ts
lines 51-57). -/
def configStep (st : PackageJson × List String × Bool) (e : String × Json) :
    PackageJson × List String × Bool :=
  let (pkg, added, changed) := st
  if keyInPkg pkg e.1 then (pkg, added, changed)
  else
    ({ pkg with rest := pkg.rest ++ [e] },
     added ++ [e.1 ++ " config"], true)

/-- The scripts-map guard of updatePackageJson (package-json.ts lines 38-40):
create an empty scripts record when scripts are proposed and none exists. -/
def upjInit (pkg : PackageJson) (mods : ResolvedPackageJsonMods) : PackageJson :=
  if !mods.scripts.isEmpty && pkg.scripts.isNone then
    { pkg with scripts := some [] }
  else pkg

/-- updatePackageJson (package-json.ts lines 29-64) on an already-parsed
manifest: returns the new manifest, the added descriptors, and whether a
write-back is due. -/
def updatePackageJson (pkg : PackageJson) (mods : ResolvedPackageJsonMods) :
    PackageJson × List String × Bool :=
  let st1 := mods.scripts.foldl scriptStep (upjInit pkg mods, [], false)
  mods.config.foldl configStep st1

/-- The manifest file on disk: either contents that parse as a manifest, or
malformed bytes on which JSON.parse throws. -/
inductive ManifestFile where
  | malformed : String → ManifestFile
  | wellFormed : PackageJson → ManifestFile

/-- readPackageJson (package-json.ts lines 19-22): JSON.parse of the file,
throwing on malformed contents. -/
def readPackageJson : ManifestFile → Except String PackageJson
  | .malformed _ => .error "Unexpected token: package.json is not valid JSON"
  | .wellFormed pkg => .ok pkg

/-- The full updatePackageJson run against the file: read (propagating the
parse failure), patch, and write back only when something changed. -/
def updatePackageJsonRun (file : ManifestFile)
    (mods : ResolvedPackageJsonMods) :
    ManifestFile × Except String (List String) :=
  match readPackageJson file with
  | .error e => (file, .error e)
  | .ok pkg =>
      let r := updatePackageJson pkg mods
      ((if r.2.2 then .wellFormed r.1 else file), .ok r.2.1)

/-- The scripts record a group proposes for a context (empty when the group
declares no packageJson or no scripts). -/
def groupScripts (g : ResolvedGroup) (ctx : Ctx) : List (String × String) :=
  match g.packageJson with
  | none => []
  | some src => (src.eval ctx).scripts.getD []

/-- The config record a group proposes for a context. -/
def groupConfig (g : ResolvedGroup) (ctx : Ctx) : List (String × Json) :=
  match g.packageJson with
  | none => []
  | some src => (src.eval ctx).config.getD []

/-- The script value proposed by the first group, in the order of the given
list, that proposes the key (the reading of first-writer for a supplied
group sequence). -/
def firstScriptVal : List ResolvedGroup → Ctx → String → Option String
  | [], _, _ => none
  | g :: gs, ctx, k => (jsGet (groupScripts g ctx) k).or (firstScriptVal gs ctx k)

/-- The config value proposed by the first group, in the order of the given
list, that proposes the key. -/
def firstConfigVal : List ResolvedGroup → Ctx → String → Option Json
  | [], _, _ => none
  | g :: gs, ctx, k => (jsGet (groupConfig g ctx) k).or (firstConfigVal gs ctx k)

/-- The subsequence of first occurrences of a list of names: what a JS Set
accumulates, in insertion order. -/
def firstSeen : List String → List String
  | [] => []
  | x :: xs => x :: firstSeen (xs.filter (fun y => !(y == x)))
termination_by l => l.length
decreasing_by
  simp only [List.length_cons]
  exact Nat.lt_succ_of_le (List.length_filter_le _ _)

/-- A Next.js context without a src directory (npm, biome). -/
def ctxNext : Ctx :=
  { srcExists := false, pm := .npm, tooling := .biome, framework := .nextjs }

/-- A vite-tanstack-router context with a src directory (npm, biome). -/
def ctxVite : Ctx :=
  { srcExists := true, pm := .npm, tooling := .biome, framework := .viteTanstackRouter }

/-- A synthetic group proposing script check = check-a (registry-earlier). -/
def rgCheckA : ResolvedGroup :=
  { label := "A", hint := "", files := [], packages := []
    packageJson := some (.lit { scripts := some [("check", "check-a")], config := none }) }

/-- A synthetic group proposing script check = check-b (registry-later). -/
def rgCheckB : ResolvedGroup :=
  { label := "B", hint := "", files := [], packages := []
    packageJson := some (.lit { scripts := some [("check", "check-b")], config := none }) }

/-- A synthetic group requiring package pkg-p. -/
def rgPkgP : ResolvedGroup :=
  { label := "P", hint := "", files := [], packages := ["pkg-p"], packageJson := none }

/-- A synthetic group requiring package pkg-q. -/
def rgPkgQ : ResolvedGroup :=
  { label := "Q", hint := "", files := [], packages := ["pkg-q"], packageJson := none }

/-- A registry group whose only file has an always-false inclusion predicate. -/
def tgDropped : TemplateGroup :=
  { label := "Dropped"
    files := [{ targetPath := .lit "never.txt", content := .static "never.txt"
                whenCond := some (fun _ => false) }]
    packages := none, packageJson := none }

/-- A registry group with one unconditional file. -/
def tgKept : TemplateGroup :=
  { label := "Kept"
    files := [{ targetPath := .lit "keep.txt", content := .static "keep.txt"
                whenCond := none }]
    packages := none, packageJson := none }

/-- The resolved form of tgKept. -/
def rgKept : ResolvedGroup :=
  { label := "Kept", hint := "keep.txt"
    files := [{ targetPath := "keep.txt", content := .static "keep.txt" }]
    packages := [], packageJson := none }

/-- The spec scenario manifest: name x with an empty scripts record. -/
def pkgScenario : PackageJson :=
  { scripts := some [], rest := [("name", Json.str "x")] }

/-- The spec scenario mods: prepare script plus a lint-staged config block. -/
def modsScenario : ResolvedPackageJsonMods :=
  { scripts := [("prepare", "husky")]
    config := [("lint-staged", Json.obj [("*", Json.str "biome check")])] }

/-- A manifest whose prepare script and lint-staged config already hold
user-customised values. -/
def pkgFrameW : PackageJson :=
  { scripts := some [("prepare", "custom")]
    rest := [("lint-staged", Json.str "keep"), ("version", Json.str "1.0.0")] }

/-- A manifest whose prepare script exists with the empty-string value. -/
def pkgEmptyScript : PackageJson :=
  { scripts := some [("prepare", "")], rest := [] }

/-- Mods proposing only prepare = husky. -/
def modsPrepare : ResolvedPackageJsonMods :=
  { scripts := [("prepare", "husky")], config := [] }

/-- A manifest with no scripts record at all. -/
def pkgNoScripts : PackageJson := { scripts := none, rest := [] }

/-- Mods proposing a script whose value is the empty string. -/
def modsEmptyVal : ResolvedPackageJsonMods :=
  { scripts := [("a", "")], config := [] }

/-- The manifest after applying modsEmptyVal once. -/
def pkgEmptyVal : PackageJson := { scripts := some [("a", "")], rest := [] }

theorem jsGet_nil {α : Type} (k : String) : jsGet ([] : List (String × α)) k = none := rfl

theorem jsGet_cons {α : Type} (k' : String) (v : α) (t : List (String × α)) (k : String) :
    jsGet ((k', v) :: t) k = if k' == k then some v else jsGet t k := by
  by_cases h : k' == k <;> simp [jsGet, List.find?_cons, h]

theorem jsGet_append {α : Type} (l1 l2 : List (String × α)) (k : String) :
    jsGet (l1 ++ l2) k = (jsGet l1 k).or (jsGet l2 k) := by
  rcases h : l1.find? (fun p => p.1 == k) with _ | p <;>
    simp [jsGet, List.find?_append, h, Option.or]

theorem jsGet_map_replace_self {α : Type} (m : List (String × α)) (k : String) (v : α)
    (h : (jsGet m k).isSome = true) :
    jsGet (m.map (fun p => if p.1 == k then (k, v) else p)) k = some v := by
  induction m with
  | nil => simp [jsGet] at h
  | cons p t ih =>
      rcases p with ⟨pk, pv⟩
      by_cases hp : pk == k
      · rw [List.map_cons, if_pos hp, jsGet_cons, if_pos (by simp)]
      · rw [List.map_cons, if_neg hp, jsGet_cons, if_neg hp]
        rw [jsGet_cons, if_neg hp] at h
        exact ih h

theorem jsGet_map_replace_ne {α : Type} (m : List (String × α)) (k k' : String) (v : α)
    (h : k' ≠ k) :
    jsGet (m.map (fun p => if p.1 == k then (k, v) else p)) k' = jsGet m k' := by
  induction m with
  | nil => rfl
  | cons p t ih =>
      rcases p with ⟨pk, pv⟩
      by_cases hp : pk == k
      · have hpk : pk = k := by simpa using hp
        subst hpk
        rw [List.map_cons, if_pos hp, jsGet_cons, jsGet_cons,
          if_neg (by simpa using fun hh => h hh.symm),
          if_neg (by simpa using fun hh => h hh.symm)]
        exact ih
      · rw [List.map_cons, if_neg hp, jsGet_cons, jsGet_cons]
        by_cases hpk' : pk == k'
        · rw [if_pos hpk', if_pos hpk']
        · rw [if_neg hpk', if_neg hpk']
          exact ih

theorem jsGet_jsSet_self {α : Type} (m : List (String × α)) (k : String) (v : α) :
    jsGet (jsSet m k v) k = some v := by
  unfold jsSet
  by_cases hs : (jsGet m k).isSome
  · rw [if_pos hs]
    exact jsGet_map_replace_self m k v hs
  · rw [if_neg hs, jsGet_append]
    have h0 : jsGet m k = none := by
      rcases h2 : jsGet m k with _ | v2
      · rfl
      · rw [h2] at hs; simp at hs
    rw [h0, jsGet_cons, if_pos (by simp)]
    rfl

theorem jsGet_jsSet_ne {α : Type} (m : List (String × α)) (k k' : String) (v : α)
    (h : k' ≠ k) : jsGet (jsSet m k v) k' = jsGet m k' := by
  unfold jsSet
  by_cases hs : (jsGet m k).isSome
  · rw [if_pos hs]
    exact jsGet_map_replace_ne m k k' v h
  · rw [if_neg hs, jsGet_append, jsGet_cons,
      if_neg (by simpa using fun hh => h hh.symm)]
    rw [jsGet_nil, Option.or_none]

theorem jsGet_isSome_append {α : Type} (l : List (String × α)) (e : String × α)
    (k : String) (h : (jsGet l k).isSome = true) :
    jsGet (l ++ [e]) k = jsGet l k := by
  rw [jsGet_append]
  rcases h2 : jsGet l k with _ | v2
  · rw [h2] at h; simp at h
  · rfl

theorem string_append_tag_inj (a b t u : String) (hlen : t.length = u.length)
    (h : a ++ t = b ++ u) : a = b ∧ t = u := by
  have hd := congrArg String.data h
  rw [String.data_append, String.data_append] at hd
  have hlen2 : t.data.length = u.data.length := hlen
  obtain ⟨h1, h2⟩ := List.append_inj' hd hlen2
  exact ⟨String.ext h1, String.ext h2⟩

theorem script_tag_inj (a b : String) (h : a ++ " script" = b ++ " script") : a = b :=
  (string_append_tag_inj a b " script" " script" rfl h).1

theorem config_tag_inj (a b : String) (h : a ++ " config" = b ++ " config") : a = b :=
  (string_append_tag_inj a b " config" " config" rfl h).1

theorem config_tag_ne_script_tag (a b : String) : a ++ " config" ≠ b ++ " script" := by
  intro h
  have := (string_append_tag_inj a b " config" " script" rfl h).2
  simp at this

theorem option_some_or {α : Type} (a : α) (o : Option α) :
    (Option.some a).or o = some a := rfl

theorem jsGet_foldl_insertAbsent {α : Type} (l : List (String × α))
    (acc : List (String × α)) (k : String) :
    jsGet (l.foldl insertAbsent acc) k = (jsGet acc k).or (jsGet l k) := by
  induction l generalizing acc with
  | nil => rw [List.foldl_nil, jsGet_nil, Option.or_none]
  | cons kv t ih =>
      rcases kv with ⟨k1, v1⟩
      rw [List.foldl_cons, ih, jsGet_cons]
      unfold insertAbsent
      by_cases h : (jsGet acc k1).isSome
      · rw [if_pos h]
        by_cases hk : k1 == k
        · have hk2 : k1 = k := by simpa using hk
          subst hk2
          rw [if_pos hk]
          rcases h2 : jsGet acc k1 with _ | v2
          · rw [h2] at h; simp at h
          · rfl
        · rw [if_neg hk]
      · rw [if_neg h, jsGet_append, jsGet_cons, jsGet_nil, Option.or_assoc]
        by_cases hk : k1 == k
        · rw [if_pos hk, if_pos hk, option_some_or]
        · rw [if_neg hk, if_neg hk, Option.none_or]

theorem pjStep_scripts (ctx : Ctx) (acc : ResolvedPackageJsonMods)
    (g : ResolvedGroup) (k : String) :
    jsGet (pjStep ctx acc g).scripts k
      = (jsGet acc.scripts k).or (jsGet (groupScripts g ctx) k) := by
  unfold pjStep groupScripts
  rcases g.packageJson with _ | src
  · rw [jsGet_nil, Option.or_none]
  · simp only []
    rcases h : (src.eval ctx).scripts with _ | l
    · simp [h, jsGet_nil, Option.or_none]
    · simp only [h, Option.getD_some]
      exact jsGet_foldl_insertAbsent l acc.scripts k

theorem pjStep_config (ctx : Ctx) (acc : ResolvedPackageJsonMods)
    (g : ResolvedGroup) (k : String) :
    jsGet (pjStep ctx acc g).config k
      = (jsGet acc.config k).or (jsGet (groupConfig g ctx) k) := by
  unfold pjStep groupConfig
  rcases g.packageJson with _ | src
  · rw [jsGet_nil, Option.or_none]
  · simp only []
    rcases h : (src.eval ctx).config with _ | l
    · simp [h, jsGet_nil, Option.or_none]
    · simp only [h, Option.getD_some]
      exact jsGet_foldl_insertAbsent l acc.config k

theorem pj_fold_scripts (groups : List ResolvedGroup) (ctx : Ctx)
    (acc : ResolvedPackageJsonMods) (k : String) :
    jsGet ((groups.foldl (pjStep ctx) acc).scripts) k
      = (jsGet acc.scripts k).or (firstScriptVal groups ctx k) := by
  induction groups generalizing acc with
  | nil => rw [List.foldl_nil]; simp only [firstScriptVal]; rw [Option.or_none]
  | cons g gs ih =>
      rw [List.foldl_cons, ih, pjStep_scripts]
      simp only [firstScriptVal]
      rw [Option.or_assoc]

theorem pj_fold_config (groups : List ResolvedGroup) (ctx : Ctx)
    (acc : ResolvedPackageJsonMods) (k : String) :
    jsGet ((groups.foldl (pjStep ctx) acc).config) k
      = (jsGet acc.config k).or (firstConfigVal groups ctx k) := by
  induction groups generalizing acc with
  | nil => rw [List.foldl_nil]; simp only [firstConfigVal]; rw [Option.or_none]
  | cons g gs ih =>
      rw [List.foldl_cons, ih, pjStep_config]
      simp only [firstConfigVal]
      rw [Option.or_assoc]

theorem mem_firstSeen (a : String) (l : List String) :
    a ∈ firstSeen l ↔ a ∈ l := by
  induction l using firstSeen.induct with
  | case1 => simp [firstSeen]
  | case2 x xs ih =>
      rw [firstSeen]
      constructor
      · intro h
        rcases List.mem_cons.mp h with h | h
        · exact h ▸ List.mem_cons_self _ _
        · exact List.mem_cons_of_mem _ (List.mem_filter.mp (ih.mp h)).1
      · intro h
        rcases List.mem_cons.mp h with h | h
        · exact h ▸ List.mem_cons_self _ _
        · by_cases hx : a = x
          · exact hx ▸ List.mem_cons_self _ _
          · exact List.mem_cons_of_mem _
              (ih.mpr (List.mem_filter.mpr ⟨h, by simpa using hx⟩))

theorem nodup_firstSeen (l : List String) : (firstSeen l).Nodup := by
  induction l using firstSeen.induct with
  | case1 => simp [firstSeen]
  | case2 x xs ih =>
      rw [firstSeen]
      refine List.nodup_cons.mpr ⟨?_, ih⟩
      intro hmem
      have := (List.mem_filter.mp ((mem_firstSeen _ _).mp hmem)).2
      simp at this

theorem foldl_insReq_eq (l : List String) (acc : List String) :
    l.foldl insReq acc = acc ++ firstSeen (l.filter (fun y => !(acc.contains y))) := by
  induction l generalizing acc with
  | nil => simp [firstSeen]
  | cons x t ih =>
      rw [List.foldl_cons]
      by_cases h : x ∈ acc
      · have hs : insReq acc x = acc := by simp [insReq, h]
        rw [hs, ih]
        have hx : (!(acc.contains x)) = false := by simp [h]
        rw [List.filter_cons, hx]
        simp only [Bool.false_eq_true, if_false]
      · have hs : insReq acc x = acc ++ [x] := by simp [insReq, h]
        rw [hs, ih]
        have hx : (!(acc.contains x)) = true := by simp [h]
        rw [List.filter_cons, hx, if_pos rfl, firstSeen]
        rw [List.append_assoc]
        refine congrArg (fun z => acc ++ z) ?_
        rw [List.singleton_append]
        refine congrArg (fun z => x :: firstSeen z) ?_
        rw [List.filter_filter]
        refine List.filter_congr ?_
        intro a _
        by_cases hax : a = x
        · subst hax
          simp
        · by_cases hac : a ∈ acc <;> simp [hax, hac]

theorem getRequiredPackages_eq_firstSeen (groups : List ResolvedGroup) :
    getRequiredPackages groups
      = firstSeen ((groups.map (fun g => g.packages)).flatten) := by
  have main : ∀ (gs : List ResolvedGroup) (acc : List String),
      gs.foldl (fun deps g => g.packages.foldl insReq deps) acc
        = ((gs.map (fun g => g.packages)).flatten).foldl insReq acc := by
    intro gs
    induction gs with
    | nil => intro acc; rfl
    | cons g t ih =>
        intro acc
        rw [List.foldl_cons, ih, List.map_cons, List.flatten_cons,
          List.foldl_append]
  rw [getRequiredPackages, main, foldl_insReq_eq]
  rw [List.nil_append]
  refine congrArg firstSeen ?_
  refine (List.filter_eq_self.mpr ?_)
  intro a _
  simp [List.contains_nil]

theorem scriptStep_eq (pkg : PackageJson) (a : List String) (c : Bool)
    (e : String × String) :
    scriptStep (pkg, a, c) e =
      if truthyStr (scriptsGet pkg e.1) then (pkg, a, c)
      else ({ pkg with scripts := some (jsSet (pkg.scripts.getD []) e.1 e.2) },
            a ++ [e.1 ++ " script"], true) := rfl

theorem configStep_eq (pkg : PackageJson) (a : List String) (c : Bool)
    (e : String × Json) :
    configStep (pkg, a, c) e =
      if keyInPkg pkg e.1 then (pkg, a, c)
      else ({ pkg with rest := pkg.rest ++ [e] },
            a ++ [e.1 ++ " config"], true) := rfl

theorem scriptStep_rest (pkg : PackageJson) (a : List String) (c : Bool)
    (e : String × String) : (scriptStep (pkg, a, c) e).1.rest = pkg.rest := by
  rw [scriptStep_eq]
  by_cases h : truthyStr (scriptsGet pkg e.1)
  · rw [if_pos h]
  · rw [if_neg h]

theorem scriptStep_truthy_value (pkg : PackageJson) (a : List String) (c : Bool)
    (e : String × String) (k : String)
    (h : truthyStr (scriptsGet pkg k) = true) :
    scriptsGet (scriptStep (pkg, a, c) e).1 k = scriptsGet pkg k := by
  rw [scriptStep_eq]
  by_cases hg : truthyStr (scriptsGet pkg e.1)
  · rw [if_pos hg]
  · rw [if_neg hg]
    have hne : k ≠ e.1 := by
      intro hh
      rw [hh] at h
      rw [h] at hg
      exact hg rfl
    rcases hm : pkg.scripts with _ | m0
    · simp [scriptsGet, truthyStr, hm] at h
    · simp only [scriptsGet, hm, Option.getD_some, Option.some_bind]
      exact jsGet_jsSet_ne m0 e.1 k e.2 hne

theorem scriptStep_added_frame (pkg : PackageJson) (a : List String) (c : Bool)
    (e : String × String) (k : String)
    (h : truthyStr (scriptsGet pkg k) = true)
    (ha : (k ++ " script") ∉ a) :
    (k ++ " script") ∉ (scriptStep (pkg, a, c) e).2.1 := by
  rw [scriptStep_eq]
  by_cases hg : truthyStr (scriptsGet pkg e.1)
  · rw [if_pos hg]; exact ha
  · rw [if_neg hg]
    intro hmem
    rcases List.mem_append.mp hmem with hmem | hmem
    · exact ha hmem
    · have heq : k ++ " script" = e.1 ++ " script" := List.mem_singleton.mp hmem
      have : k = e.1 := script_tag_inj _ _ heq
      rw [this] at h
      rw [h] at hg
      exact hg rfl

theorem scriptStep_scripts_isSome (pkg : PackageJson) (a : List String) (c : Bool)
    (e : String × String) (h : pkg.scripts.isSome = true) :
    (scriptStep (pkg, a, c) e).1.scripts.isSome = true := by
  rw [scriptStep_eq]
  by_cases hg : truthyStr (scriptsGet pkg e.1)
  · rw [if_pos hg]; exact h
  · rw [if_neg hg]; rfl

theorem scriptStep_scriptsGet_isSome (pkg : PackageJson) (a : List String)
    (c : Bool) (e : String × String) (k : String)
    (h : (scriptsGet pkg k).isSome = true) :
    (scriptsGet (scriptStep (pkg, a, c) e).1 k).isSome = true := by
  rw [scriptStep_eq]
  by_cases hg : truthyStr (scriptsGet pkg e.1)
  · rw [if_pos hg]; exact h
  · rw [if_neg hg]
    rcases hm : pkg.scripts with _ | m0
    · simp [scriptsGet, hm] at h
    · simp only [scriptsGet, hm, Option.getD_some, Option.some_bind]
      by_cases hk : k = e.1
      · rw [hk, jsGet_jsSet_self]; rfl
      · rw [jsGet_jsSet_ne m0 e.1 k e.2 hk]
        simp only [scriptsGet, hm, Option.some_bind] at h
        exact h

theorem scriptStep_skip (pkg : PackageJson) (a : List String) (c : Bool)
    (e : String × String) (h : truthyStr (scriptsGet pkg e.1) = true) :
    scriptStep (pkg, a, c) e = (pkg, a, c) := by
  rw [scriptStep_eq, if_pos h]

theorem scriptStep_changed_false (pkg : PackageJson) (a : List String) (c : Bool)
    (e : String × String) (h : (scriptStep (pkg, a, c) e).2.2 = false) :
    scriptStep (pkg, a, c) e = (pkg, a, c) := by
  rw [scriptStep_eq] at h ⊢
  by_cases hg : truthyStr (scriptsGet pkg e.1)
  · rw [if_pos hg]
  · rw [if_neg hg] at h
    simp at h

theorem configStep_scripts (pkg : PackageJson) (a : List String) (c : Bool)
    (e : String × Json) : (configStep (pkg, a, c) e).1.scripts = pkg.scripts := by
  rw [configStep_eq]
  by_cases h : keyInPkg pkg e.1
  · rw [if_pos h]
  · rw [if_neg h]

theorem configStep_skip (pkg : PackageJson) (a : List String) (c : Bool)
    (e : String × Json) (h : keyInPkg pkg e.1 = true) :
    configStep (pkg, a, c) e = (pkg, a, c) := by
  rw [configStep_eq, if_pos h]

theorem configStep_rest_value (pkg : PackageJson) (a : List String) (c : Bool)
    (e : String × Json) (k : String) (v : Json)
    (h : jsGet pkg.rest k = some v) :
    jsGet (configStep (pkg, a, c) e).1.rest k = some v := by
  rw [configStep_eq]
  by_cases hg : keyInPkg pkg e.1
  · rw [if_pos hg]; exact h
  · rw [if_neg hg]
    show jsGet (pkg.rest ++ [e]) k = some v
    rw [jsGet_isSome_append pkg.rest e k (by rw [h]; rfl)]
    exact h

theorem configStep_added_frame (pkg : PackageJson) (a : List String) (c : Bool)
    (e : String × Json) (k : String)
    (h : (jsGet pkg.rest k).isSome = true)
    (ha : (k ++ " config") ∉ a) :
    (k ++ " config") ∉ (configStep (pkg, a, c) e).2.1 := by
  rw [configStep_eq]
  by_cases hg : keyInPkg pkg e.1
  · rw [if_pos hg]; exact ha
  · rw [if_neg hg]
    intro hmem
    rcases List.mem_append.mp hmem with hmem | hmem
    · exact ha hmem
    · have heq : k ++ " config" = e.1 ++ " config" := List.mem_singleton.mp hmem
      have hke : k = e.1 := config_tag_inj _ _ heq
      rw [keyInPkg] at hg
      rw [← hke] at hg
      have : (jsGet pkg.rest k).isSome = false := by
        rcases h2 : (jsGet pkg.rest k).isSome with _ | _
        · rfl
        · exfalso; exact hg (by simp [h2])
      rw [h] at this
      simp at this

theorem configStep_keyIn_mono (pkg : PackageJson) (a : List String) (c : Bool)
    (e : String × Json) (k : String) (h : keyInPkg pkg k = true) :
    keyInPkg (configStep (pkg, a, c) e).1 k = true := by
  rw [configStep_eq]
  by_cases hg : keyInPkg pkg e.1
  · rw [if_pos hg]; exact h
  · rw [if_neg hg]
    show keyInPkg { pkg with rest := pkg.rest ++ [e] } k = true
    rw [keyInPkg] at h ⊢
    rcases Bool.or_eq_true_iff.mp h with h | h
    · exact Bool.or_eq_true_iff.mpr (Or.inl h)
    · refine Bool.or_eq_true_iff.mpr (Or.inr ?_)
      show (jsGet (pkg.rest ++ [e]) k).isSome = true
      rw [jsGet_isSome_append pkg.rest e k h]
      exact h

theorem configStep_added_mem (pkg : PackageJson) (a : List String) (c : Bool)
    (e : String × Json) (x : String)
    (h : x ∈ (configStep (pkg, a, c) e).2.1) :
    x ∈ a ∨ x = e.1 ++ " config" := by
  rw [configStep_eq] at h
  by_cases hg : keyInPkg pkg e.1
  · rw [if_pos hg] at h; exact Or.inl h
  · rw [if_neg hg] at h
    rcases List.mem_append.mp h with h | h
    · exact Or.inl h
    · exact Or.inr (List.mem_singleton.mp h)

theorem scriptStep_added_mem (pkg : PackageJson) (a : List String) (c : Bool)
    (e : String × String) (x : String)
    (h : x ∈ (scriptStep (pkg, a, c) e).2.1) :
    x ∈ a ∨ x = e.1 ++ " script" := by
  rw [scriptStep_eq] at h
  by_cases hg : truthyStr (scriptsGet pkg e.1)
  · rw [if_pos hg] at h; exact Or.inl h
  · rw [if_neg hg] at h
    rcases List.mem_append.mp h with h | h
    · exact Or.inl h
    · exact Or.inr (List.mem_singleton.mp h)

theorem configStep_changed_false (pkg : PackageJson) (a : List String) (c : Bool)
    (e : String × Json) (h : (configStep (pkg, a, c) e).2.2 = false) :
    configStep (pkg, a, c) e = (pkg, a, c) := by
  rw [configStep_eq] at h ⊢
  by_cases hg : keyInPkg pkg e.1
  · rw [if_pos hg]
  · rw [if_neg hg] at h
    simp at h

theorem script_fold_rest (l : List (String × String)) (pkg : PackageJson)
    (a : List String) (c : Bool) :
    (l.foldl scriptStep (pkg, a, c)).1.rest = pkg.rest := by
  induction l generalizing pkg a c with
  | nil => rfl
  | cons e t ih =>
      rw [List.foldl_cons]
      rcases hst : scriptStep (pkg, a, c) e with ⟨pkg1, a1, c1⟩
      have hr := scriptStep_rest pkg a c e
      rw [hst] at hr
      rw [ih pkg1 a1 c1]
      exact hr

theorem script_fold_truthy_value (l : List (String × String)) (pkg : PackageJson)
    (a : List String) (c : Bool) (k : String)
    (h : truthyStr (scriptsGet pkg k) = true) :
    scriptsGet (l.foldl scriptStep (pkg, a, c)).1 k = scriptsGet pkg k := by
  induction l generalizing pkg a c with
  | nil => rfl
  | cons e t ih =>
      rw [List.foldl_cons]
      rcases hst : scriptStep (pkg, a, c) e with ⟨pkg1, a1, c1⟩
      have hv := scriptStep_truthy_value pkg a c e k h
      rw [hst] at hv
      have h1 : truthyStr (scriptsGet pkg1 k) = true := by rw [hv]; exact h
      rw [ih pkg1 a1 c1 h1]
      exact hv

theorem script_fold_preserve (l : List (String × String)) (pkg : PackageJson)
    (a : List String) (c : Bool) (k : String)
    (h : truthyStr (scriptsGet pkg k) = true)
    (ha : (k ++ " script") ∉ a) :
    scriptsGet (l.foldl scriptStep (pkg, a, c)).1 k = scriptsGet pkg k ∧
      (k ++ " script") ∉ (l.foldl scriptStep (pkg, a, c)).2.1 := by
  induction l generalizing pkg a c with
  | nil => exact ⟨rfl, ha⟩
  | cons e t ih =>
      rw [List.foldl_cons]
      rcases hst : scriptStep (pkg, a, c) e with ⟨pkg1, a1, c1⟩
      have hv := scriptStep_truthy_value pkg a c e k h
      rw [hst] at hv
      have h1 : truthyStr (scriptsGet pkg1 k) = true := by rw [hv]; exact h
      have haf := scriptStep_added_frame pkg a c e k h ha
      rw [hst] at haf
      obtain ⟨ih1, ih2⟩ := ih pkg1 a1 c1 h1 haf
      exact ⟨by rw [ih1]; exact hv, ih2⟩

theorem script_fold_scripts_isSome (l : List (String × String))
    (pkg : PackageJson) (a : List String) (c : Bool)
    (h : pkg.scripts.isSome = true) :
    (l.foldl scriptStep (pkg, a, c)).1.scripts.isSome = true := by
  induction l generalizing pkg a c with
  | nil => exact h
  | cons e t ih =>
      rw [List.foldl_cons]
      rcases hst : scriptStep (pkg, a, c) e with ⟨pkg1, a1, c1⟩
      have h1 := scriptStep_scripts_isSome pkg a c e h
      rw [hst] at h1
      exact ih pkg1 a1 c1 h1

theorem script_fold_scriptsGet_isSome (l : List (String × String))
    (pkg : PackageJson) (a : List String) (c : Bool) (k : String)
    (h : (scriptsGet pkg k).isSome = true) :
    (scriptsGet (l.foldl scriptStep (pkg, a, c)).1 k).isSome = true := by
  induction l generalizing pkg a c with
  | nil => exact h
  | cons e t ih =>
      rw [List.foldl_cons]
      rcases hst : scriptStep (pkg, a, c) e with ⟨pkg1, a1, c1⟩
      have h1 := scriptStep_scriptsGet_isSome pkg a c e k h
      rw [hst] at h1
      exact ih pkg1 a1 c1 h1

theorem script_fold_noop (l : List (String × String)) (pkg : PackageJson)
    (a : List String) (c : Bool)
    (h : ∀ kv ∈ l, truthyStr (scriptsGet pkg kv.1) = true) :
    l.foldl scriptStep (pkg, a, c) = (pkg, a, c) := by
  induction l with
  | nil => rfl
  | cons e t ih =>
      rw [List.foldl_cons, scriptStep_skip pkg a c e (h e (List.mem_cons_self _ _))]
      exact ih (fun kv hkv => h kv (List.mem_cons_of_mem _ hkv))

theorem script_fold_added_mono (l : List (String × String)) (pkg : PackageJson)
    (a : List String) (c : Bool) (x : String) (h : x ∈ a) :
    x ∈ (l.foldl scriptStep (pkg, a, c)).2.1 := by
  induction l generalizing pkg a c with
  | nil => exact h
  | cons e t ih =>
      rw [List.foldl_cons]
      rcases hst : scriptStep (pkg, a, c) e with ⟨pkg1, a1, c1⟩
      have h1 : x ∈ a1 := by
        rw [scriptStep_eq] at hst
        by_cases hg : truthyStr (scriptsGet pkg e.1)
        · rw [if_pos hg] at hst
          cases hst
          exact h
        · rw [if_neg hg] at hst
          cases hst
          exact List.mem_append.mpr (Or.inl h)
      exact ih pkg1 a1 c1 h1

theorem script_fold_added_mem (l : List (String × String)) (pkg : PackageJson)
    (a : List String) (c : Bool) (x : String)
    (h : x ∈ (l.foldl scriptStep (pkg, a, c)).2.1) :
    x ∈ a ∨ ∃ e ∈ l, x = e.1 ++ " script" := by
  induction l generalizing pkg a c with
  | nil => exact Or.inl h
  | cons e t ih =>
      rw [List.foldl_cons] at h
      rcases hst : scriptStep (pkg, a, c) e with ⟨pkg1, a1, c1⟩
      rw [hst] at h
      rcases ih pkg1 a1 c1 h with h1 | ⟨e2, he2, hx⟩
      · have := scriptStep_added_mem pkg a c e x
        rw [hst] at this
        rcases this h1 with h2 | h2
        · exact Or.inl h2
        · exact Or.inr ⟨e, List.mem_cons_self _ _, h2⟩
      · exact Or.inr ⟨e2, List.mem_cons_of_mem _ he2, hx⟩

theorem script_fold_changed_false (l : List (String × String))
    (pkg : PackageJson) (a : List String) (c : Bool)
    (h : (l.foldl scriptStep (pkg, a, c)).2.2 = false) :
    l.foldl scriptStep (pkg, a, c) = (pkg, a, c) := by
  induction l generalizing pkg a c with
  | nil => rfl
  | cons e t ih =>
      rw [List.foldl_cons] at h ⊢
      rcases hst : scriptStep (pkg, a, c) e with ⟨pkg1, a1, c1⟩
      rw [hst] at h
      have hrec := ih pkg1 a1 c1 h
      rw [hrec] at h
      have h2 : (scriptStep (pkg, a, c) e).2.2 = false := by rw [hst]; exact h
      have h3 := scriptStep_changed_false pkg a c e h2
      rw [hrec, ← hst, h3]

theorem script_fold_establish (l : List (String × String)) (pkg : PackageJson)
    (a : List String) (c : Bool) (hl : ∀ kv ∈ l, kv.2 ≠ "") :
    ∀ kv ∈ l, truthyStr (scriptsGet (l.foldl scriptStep (pkg, a, c)).1 kv.1) = true := by
  induction l generalizing pkg a c with
  | nil => intro kv hkv; cases hkv
  | cons e t ih =>
      intro kv hkv
      rw [List.foldl_cons]
      rcases hst : scriptStep (pkg, a, c) e with ⟨pkg1, a1, c1⟩
      rcases List.mem_cons.mp hkv with hkv | hkv
      · subst hkv
        have h1 : truthyStr (scriptsGet pkg1 kv.1) = true := by
          by_cases hg : truthyStr (scriptsGet pkg kv.1)
          · have hv := scriptStep_truthy_value pkg a c kv kv.1 hg
            rw [hst] at hv
            rw [hv]
            exact hg
          · have hact : scriptStep (pkg, a, c) kv =
                ({ pkg with scripts := some (jsSet (pkg.scripts.getD []) kv.1 kv.2) },
                 a ++ [kv.1 ++ " script"], true) := by
              rw [scriptStep_eq, if_neg hg]
            rw [hst] at hact
            have hp : pkg1 = { pkg with
                scripts := some (jsSet (pkg.scripts.getD []) kv.1 kv.2) } :=
              congrArg (fun st => st.1) hact
            rw [hp]
            show truthyStr ((Option.some (jsSet (pkg.scripts.getD []) kv.1 kv.2)).bind
              (fun m => jsGet m kv.1)) = true
            rw [Option.some_bind, jsGet_jsSet_self]
            have := hl kv (List.mem_cons_self _ _)
            simp [truthyStr, this]
        have := script_fold_truthy_value t pkg1 a1 c1 kv.1 h1
        rw [this]
        exact h1
      · exact ih pkg1 a1 c1 (fun kv2 hkv2 => hl kv2 (List.mem_cons_of_mem _ hkv2)) kv hkv

theorem config_fold_scripts (l : List (String × Json)) (pkg : PackageJson)
    (a : List String) (c : Bool) :
    (l.foldl configStep (pkg, a, c)).1.scripts = pkg.scripts := by
  induction l generalizing pkg a c with
  | nil => rfl
  | cons e t ih =>
      rw [List.foldl_cons]
      rcases hst : configStep (pkg, a, c) e with ⟨pkg1, a1, c1⟩
      have hr := configStep_scripts pkg a c e
      rw [hst] at hr
      rw [ih pkg1 a1 c1]
      exact hr

theorem config_fold_preserve (l : List (String × Json)) (pkg : PackageJson)
    (a : List String) (c : Bool) (k : String) (v : Json)
    (h : jsGet pkg.rest k = some v)
    (ha : (k ++ " config") ∉ a) :
    jsGet (l.foldl configStep (pkg, a, c)).1.rest k = some v ∧
      (k ++ " config") ∉ (l.foldl configStep (pkg, a, c)).2.1 := by
  induction l generalizing pkg a c with
  | nil => exact ⟨h, ha⟩
  | cons e t ih =>
      rw [List.foldl_cons]
      rcases hst : configStep (pkg, a, c) e with ⟨pkg1, a1, c1⟩
      have hv := configStep_rest_value pkg a c e k v h
      rw [hst] at hv
      have haf := configStep_added_frame pkg a c e k (by rw [h]; rfl) ha
      rw [hst] at haf
      exact ih pkg1 a1 c1 hv haf

theorem config_fold_keyIn_mono (l : List (String × Json)) (pkg : PackageJson)
    (a : List String) (c : Bool) (k : String) (h : keyInPkg pkg k = true) :
    keyInPkg (l.foldl configStep (pkg, a, c)).1 k = true := by
  induction l generalizing pkg a c with
  | nil => exact h
  | cons e t ih =>
      rw [List.foldl_cons]
      rcases hst : configStep (pkg, a, c) e with ⟨pkg1, a1, c1⟩
      have h1 := configStep_keyIn_mono pkg a c e k h
      rw [hst] at h1
      exact ih pkg1 a1 c1 h1

theorem config_fold_establish (l : List (String × Json)) (pkg : PackageJson)
    (a : List String) (c : Bool) :
    ∀ kv ∈ l, keyInPkg (l.foldl configStep (pkg, a, c)).1 kv.1 = true := by
  induction l generalizing pkg a c with
  | nil => intro kv hkv; cases hkv
  | cons e t ih =>
      intro kv hkv
      rw [List.foldl_cons]
      rcases hst : configStep (pkg, a, c) e with ⟨pkg1, a1, c1⟩
      rcases List.mem_cons.mp hkv with hkv | hkv
      · subst hkv
        have h1 : keyInPkg pkg1 kv.1 = true := by
          by_cases hg : keyInPkg pkg kv.1
          · have := configStep_keyIn_mono pkg a c kv kv.1 hg
            rw [hst] at this
            exact this
          · have hact : configStep (pkg, a, c) kv =
                ({ pkg with rest := pkg.rest ++ [kv] },
                 a ++ [kv.1 ++ " config"], true) := by
              rw [configStep_eq, if_neg hg]
            rw [hst] at hact
            have hp : pkg1 = { pkg with rest := pkg.rest ++ [kv] } :=
              congrArg (fun st => st.1) hact
            rw [hp]
            rw [keyInPkg]
            refine Bool.or_eq_true_iff.mpr (Or.inr ?_)
            show (jsGet (pkg.rest ++ [kv]) kv.1).isSome = true
            have hnone : jsGet pkg.rest kv.1 = none := by
              rw [keyInPkg] at hg
              rcases h2 : jsGet pkg.rest kv.1 with _ | v2
              · rfl
              · exfalso
                refine hg (Bool.or_eq_true_iff.mpr (Or.inr ?_))
                rw [h2]; rfl
            rw [jsGet_append, hnone, Option.none_or, jsGet_cons, if_pos (by simp)]
            rfl
        have := config_fold_keyIn_mono t pkg1 a1 c1 kv.1 h1
        exact this
      · exact ih pkg1 a1 c1 kv hkv

theorem config_fold_noop (l : List (String × Json)) (pkg : PackageJson)
    (a : List String) (c : Bool)
    (h : ∀ kv ∈ l, keyInPkg pkg kv.1 = true) :
    l.foldl configStep (pkg, a, c) = (pkg, a, c) := by
  induction l with
  | nil => rfl
  | cons e t ih =>
      rw [List.foldl_cons, configStep_skip pkg a c e (h e (List.mem_cons_self _ _))]
      exact ih (fun kv hkv => h kv (List.mem_cons_of_mem _ hkv))

theorem config_fold_added_mono (l : List (String × Json)) (pkg : PackageJson)
    (a : List String) (c : Bool) (x : String) (h : x ∈ a) :
    x ∈ (l.foldl configStep (pkg, a, c)).2.1 := by
  induction l generalizing pkg a c with
  | nil => exact h
  | cons e t ih =>
      rw [List.foldl_cons]
      rcases hst : configStep (pkg, a, c) e with ⟨pkg1, a1, c1⟩
      have h1 : x ∈ a1 := by
        rw [configStep_eq] at hst
        by_cases hg : keyInPkg pkg e.1
        · rw [if_pos hg] at hst
          cases hst
          exact h
        · rw [if_neg hg] at hst
          cases hst
          exact List.mem_append.mpr (Or.inl h)
      exact ih pkg1 a1 c1 h1

theorem config_fold_added_mem (l : List (String × Json)) (pkg : PackageJson)
    (a : List String) (c : Bool) (x : String)
    (h : x ∈ (l.foldl configStep (pkg, a, c)).2.1) :
    x ∈ a ∨ ∃ e ∈ l, x = e.1 ++ " config" := by
  induction l generalizing pkg a c with
  | nil => exact Or.inl h
  | cons e t ih =>
      rw [List.foldl_cons] at h
      rcases hst : configStep (pkg, a, c) e with ⟨pkg1, a1, c1⟩
      rw [hst] at h
      rcases ih pkg1 a1 c1 h with h1 | ⟨e2, he2, hx⟩
      · have := configStep_added_mem pkg a c e x
        rw [hst] at this
        rcases this h1 with h2 | h2
        · exact Or.inl h2
        · exact Or.inr ⟨e, List.mem_cons_self _ _, h2⟩
      · exact Or.inr ⟨e2, List.mem_cons_of_mem _ he2, hx⟩

theorem config_fold_changed_false (l : List (String × Json))
    (pkg : PackageJson) (a : List String) (c : Bool)
    (h : (l.foldl configStep (pkg, a, c)).2.2 = false) :
    l.foldl configStep (pkg, a, c) = (pkg, a, c) := by
  induction l generalizing pkg a c with
  | nil => rfl
  | cons e t ih =>
      rw [List.foldl_cons] at h ⊢
      rcases hst : configStep (pkg, a, c) e with ⟨pkg1, a1, c1⟩
      rw [hst] at h
      have hrec := ih pkg1 a1 c1 h
      rw [hrec] at h
      have h2 : (configStep (pkg, a, c) e).2.2 = false := by rw [hst]; exact h
      have h3 := configStep_changed_false pkg a c e h2
      rw [hrec, ← hst, h3]

theorem configStep_rest_frame (pkg : PackageJson) (a : List String) (c : Bool)
    (e : String × Json) (k : String) (hke : e.1 ≠ k) :
    jsGet (configStep (pkg, a, c) e).1.rest k = jsGet pkg.rest k := by
  rw [configStep_eq]
  by_cases hg : keyInPkg pkg e.1
  · rw [if_pos hg]
  · rw [if_neg hg]
    show jsGet (pkg.rest ++ [e]) k = jsGet pkg.rest k
    rw [jsGet_append, jsGet_cons, if_neg (by simpa using hke), jsGet_nil,
      Option.or_none]

theorem config_fold_rest_frame (l : List (String × Json)) (pkg : PackageJson)
    (a : List String) (c : Bool) (k : String)
    (hk : ∀ e ∈ l, e.1 ≠ k) :
    jsGet (l.foldl configStep (pkg, a, c)).1.rest k = jsGet pkg.rest k := by
  induction l generalizing pkg a c with
  | nil => rfl
  | cons e t ih =>
      rw [List.foldl_cons]
      rcases hst : configStep (pkg, a, c) e with ⟨pkg1, a1, c1⟩
      have h1 := configStep_rest_frame pkg a c e k (hk e (List.mem_cons_self _ _))
      rw [hst] at h1
      rw [ih pkg1 a1 c1 (fun e2 he2 => hk e2 (List.mem_cons_of_mem _ he2))]
      exact h1

theorem scriptStep_inv (pkg : PackageJson) (a : List String) (c : Bool)
    (e : String × String) (h : c = true ↔ a ≠ []) :
    ((scriptStep (pkg, a, c) e).2.2 = true ↔ (scriptStep (pkg, a, c) e).2.1 ≠ []) := by
  rw [scriptStep_eq]
  by_cases hg : truthyStr (scriptsGet pkg e.1)
  · rw [if_pos hg]; exact h
  · rw [if_neg hg]
    constructor
    · intro _; simp
    · intro _; rfl

theorem configStep_inv (pkg : PackageJson) (a : List String) (c : Bool)
    (e : String × Json) (h : c = true ↔ a ≠ []) :
    ((configStep (pkg, a, c) e).2.2 = true ↔ (configStep (pkg, a, c) e).2.1 ≠ []) := by
  rw [configStep_eq]
  by_cases hg : keyInPkg pkg e.1
  · rw [if_pos hg]; exact h
  · rw [if_neg hg]
    constructor
    · intro _; simp
    · intro _; rfl

theorem script_fold_inv (l : List (String × String)) (pkg : PackageJson)
    (a : List String) (c : Bool) (h : c = true ↔ a ≠ []) :
    ((l.foldl scriptStep (pkg, a, c)).2.2 = true ↔
      (l.foldl scriptStep (pkg, a, c)).2.1 ≠ []) := by
  induction l generalizing pkg a c with
  | nil => exact h
  | cons e t ih =>
      rw [List.foldl_cons]
      rcases hst : scriptStep (pkg, a, c) e with ⟨pkg1, a1, c1⟩
      have h1 := scriptStep_inv pkg a c e h
      rw [hst] at h1
      exact ih pkg1 a1 c1 h1

theorem config_fold_inv (l : List (String × Json)) (pkg : PackageJson)
    (a : List String) (c : Bool) (h : c = true ↔ a ≠ []) :
    ((l.foldl configStep (pkg, a, c)).2.2 = true ↔
      (l.foldl configStep (pkg, a, c)).2.1 ≠ []) := by
  induction l generalizing pkg a c with
  | nil => exact h
  | cons e t ih =>
      rw [List.foldl_cons]
      rcases hst : configStep (pkg, a, c) e with ⟨pkg1, a1, c1⟩
      have h1 := configStep_inv pkg a c e h
      rw [hst] at h1
      exact ih pkg1 a1 c1 h1

theorem upjInit_rest (pkg : PackageJson) (mods : ResolvedPackageJsonMods) :
    (upjInit pkg mods).rest = pkg.rest := by
  unfold upjInit
  by_cases h : (!mods.scripts.isEmpty && pkg.scripts.isNone)
  · rw [if_pos h]
  · rw [if_neg h]

theorem upjInit_scriptsGet (pkg : PackageJson) (mods : ResolvedPackageJsonMods)
    (k : String) : scriptsGet (upjInit pkg mods) k = scriptsGet pkg k := by
  unfold upjInit
  by_cases h : (!mods.scripts.isEmpty && pkg.scripts.isNone)
  · rw [if_pos h]
    have hn : pkg.scripts = none :=
      Option.isNone_iff_eq_none.mp (Bool.and_eq_true_iff.mp h).2
    rw [scriptsGet, scriptsGet, hn]
    rfl
  · rw [if_neg h]

theorem upjInit_of_isSome (pkg : PackageJson) (mods : ResolvedPackageJsonMods)
    (h : pkg.scripts.isSome = true) : upjInit pkg mods = pkg := by
  unfold upjInit
  have hn : pkg.scripts.isNone = false := by
    rcases hp : pkg.scripts with _ | m
    · rw [hp] at h; cases h
    · rfl
  rw [if_neg (by simp [hn])]

theorem upjInit_of_nil (pkg : PackageJson) (mods : ResolvedPackageJsonMods)
    (h : mods.scripts = []) : upjInit pkg mods = pkg := by
  unfold upjInit
  rw [if_neg (by simp [h])]

theorem upjInit_scripts_isSome (pkg : PackageJson) (mods : ResolvedPackageJsonMods)
    (h : mods.scripts ≠ []) : (upjInit pkg mods).scripts.isSome = true := by
  unfold upjInit
  by_cases hp : pkg.scripts.isNone
  · rw [if_pos (by simp [hp, List.isEmpty_iff, h])]
    rfl
  · rw [if_neg (by simp [hp])]
    rcases hps : pkg.scripts with _ | m
    · rw [hps] at hp; simp at hp
    · rfl

theorem updatePackageJson_eq (pkg : PackageJson) (mods : ResolvedPackageJsonMods) :
    updatePackageJson pkg mods
      = mods.config.foldl configStep
          (mods.scripts.foldl scriptStep (upjInit pkg mods, [], false)) := rfl

theorem scriptsGet_congr (p q : PackageJson) (k : String)
    (h : p.scripts = q.scripts) : scriptsGet p k = scriptsGet q k := by
  rw [scriptsGet, scriptsGet, h]

theorem upj_establish_scripts (pkg : PackageJson) (mods : ResolvedPackageJsonMods)
    (hv : ∀ kv ∈ mods.scripts, kv.2 ≠ "") :
    ∀ kv ∈ mods.scripts,
      truthyStr (scriptsGet (updatePackageJson pkg mods).1 kv.1) = true := by
  intro kv hkv
  rw [updatePackageJson_eq]
  rcases hs : mods.scripts.foldl scriptStep (upjInit pkg mods, [], false)
    with ⟨pkg1, a1, c1⟩
  have hcs := config_fold_scripts mods.config pkg1 a1 c1
  rw [scriptsGet_congr _ pkg1 kv.1 hcs]
  have := script_fold_establish mods.scripts (upjInit pkg mods) [] false hv kv hkv
  rw [hs] at this
  exact this

theorem upj_establish_config (pkg : PackageJson) (mods : ResolvedPackageJsonMods) :
    ∀ kv ∈ mods.config, keyInPkg (updatePackageJson pkg mods).1 kv.1 = true := by
  intro kv hkv
  rw [updatePackageJson_eq]
  rcases hs : mods.scripts.foldl scriptStep (upjInit pkg mods, [], false)
    with ⟨pkg1, a1, c1⟩
  exact config_fold_establish mods.config pkg1 a1 c1 kv hkv

theorem upj_scripts_isSome (pkg : PackageJson) (mods : ResolvedPackageJsonMods)
    (h : mods.scripts ≠ []) :
    (updatePackageJson pkg mods).1.scripts.isSome = true := by
  rw [updatePackageJson_eq]
  rcases hs : mods.scripts.foldl scriptStep (upjInit pkg mods, [], false)
    with ⟨pkg1, a1, c1⟩
  have h1 := script_fold_scripts_isSome mods.scripts (upjInit pkg mods) [] false
    (upjInit_scripts_isSome pkg mods h)
  rw [hs] at h1
  have hcs := config_fold_scripts mods.config pkg1 a1 c1
  show ((mods.config.foldl configStep (pkg1, a1, c1)).1.scripts).isSome = true
  rw [hcs]
  exact h1

theorem upj_idem_state (pkg : PackageJson) (mods : ResolvedPackageJsonMods)
    (hv : ∀ kv ∈ mods.scripts, kv.2 ≠ "") :
    updatePackageJson (updatePackageJson pkg mods).1 mods
      = ((updatePackageJson pkg mods).1, [], false) := by
  have hTr := upj_establish_scripts pkg mods hv
  have hKi := upj_establish_config pkg mods
  have hinit : upjInit (updatePackageJson pkg mods).1 mods
      = (updatePackageJson pkg mods).1 := by
    rcases hms : mods.scripts with _ | ⟨e, t⟩
    · exact upjInit_of_nil _ mods hms
    · exact upjInit_of_isSome _ mods
        (upj_scripts_isSome pkg mods (by rw [hms]; exact List.cons_ne_nil _ _))
  rw [updatePackageJson_eq, hinit,
    script_fold_noop mods.scripts (updatePackageJson pkg mods).1 [] false hTr,
    config_fold_noop mods.config (updatePackageJson pkg mods).1 [] false hKi]

theorem upj_changed_false (pkg : PackageJson) (mods : ResolvedPackageJsonMods)
    (h : (updatePackageJson pkg mods).2.2 = false) :
    (updatePackageJson pkg mods).1 = pkg := by
  rw [updatePackageJson_eq] at h ⊢
  rcases hs : mods.scripts.foldl scriptStep (upjInit pkg mods, [], false)
    with ⟨pkg1, a1, c1⟩
  rw [hs] at h
  have hcf := config_fold_changed_false mods.config pkg1 a1 c1 h
  rw [hcf] at h ⊢
  have hsf := script_fold_changed_false mods.scripts (upjInit pkg mods) [] false
    (by rw [hs]; exact h)
  rw [hs] at hsf
  have hp1 : pkg1 = upjInit pkg mods := congrArg (fun st => st.1) hsf
  show pkg1 = pkg
  by_cases hg : (!mods.scripts.isEmpty && pkg.scripts.isNone)
  · exfalso
    rcases hms : mods.scripts with _ | ⟨e, t⟩
    · rw [hms] at hg; simp at hg
    · have hinit : upjInit pkg mods = { pkg with scripts := some [] } := by
        unfold upjInit; rw [if_pos hg]
      have hg1 : truthyStr (scriptsGet (upjInit pkg mods) e.1) = false := by
        rw [hinit]; rfl
      have hact : scriptStep (upjInit pkg mods, [], false) e
          = ({ upjInit pkg mods with
                scripts := some (jsSet ((upjInit pkg mods).scripts.getD []) e.1 e.2) },
             ([] : List String) ++ [e.1 ++ " script"], true) := by
        rw [scriptStep_eq, if_neg (by rw [hg1]; exact Bool.false_ne_true)]
      have hmem : (e.1 ++ " script")
          ∈ (mods.scripts.foldl scriptStep (upjInit pkg mods, [], false)).2.1 := by
        rw [hms, List.foldl_cons, hact]
        exact script_fold_added_mono t _ _ _ _ (by simp)
      rw [hs] at hmem
      have ha1 : a1 = [] := congrArg (fun st => st.2.1) hsf
      rw [show ((pkg1, a1, c1) : PackageJson × List String × Bool).2.1 = a1 from rfl,
        ha1] at hmem
      cases hmem
  · rw [hp1]
    unfold upjInit
    rw [if_neg hg]

theorem upj_changed_iff_added (pkg : PackageJson) (mods : ResolvedPackageJsonMods) :
    ((updatePackageJson pkg mods).2.2 = true ↔
      (updatePackageJson pkg mods).2.1 ≠ []) := by
  rw [updatePackageJson_eq]
  rcases hs : mods.scripts.foldl scriptStep (upjInit pkg mods, [], false)
    with ⟨pkg1, a1, c1⟩
  have h1 := script_fold_inv mods.scripts (upjInit pkg mods) [] false
    (by constructor
        · intro hh; cases hh
        · intro hh; exact absurd rfl hh)
  rw [hs] at h1
  exact config_fold_inv mods.config pkg1 a1 c1 h1

theorem updatePackageJsonRun_wf (p : PackageJson) (mods : ResolvedPackageJsonMods) :
    updatePackageJsonRun (.wellFormed p) mods
      = ((if (updatePackageJson p mods).2.2 then
            ManifestFile.wellFormed (updatePackageJson p mods).1
          else ManifestFile.wellFormed p),
         Except.ok (updatePackageJson p mods).2.1) := rfl

/-- Claim C1, counterexample: getPackageJsonMods keeps the value of the first
group in the array order supplied by its caller, not the value of the group
registered earlier.  Supplying the selection of a two-group registry in
reversed order yields the registry-later value check-b, not check-a. -/
theorem c1_counterexample :
    List.Perm [rgCheckB, rgCheckA] [rgCheckA, rgCheckB] ∧
    firstScriptVal [rgCheckA, rgCheckB] ctxNext "check" = some "check-a" ∧
    jsGet (getPackageJsonMods [rgCheckB, rgCheckA] ctxNext).scripts "check"
      = some "check-b" ∧
    (some "check-b" : Option String) ≠ some "check-a" :=
  ⟨List.Perm.swap _ _ _, rfl, rfl, by decide⟩

/-- Claim C1, amended: for every supplied group array and every script or
config key, getPackageJsonMods keeps the value proposed by the first group in
the supplied array order that proposes the key; when the supplied array
preserves TEMPLATE_GROUPS declaration order (as resolveGroups outputs and the
CLI selection filter do), this is the registry-order-earlier value. -/
theorem c1_first_writer_wins (groups : List ResolvedGroup) (ctx : Ctx) (k : String) :
    jsGet (getPackageJsonMods groups ctx).scripts k = firstScriptVal groups ctx k ∧
    jsGet (getPackageJsonMods groups ctx).config k = firstConfigVal groups ctx k := by
  unfold getPackageJsonMods
  rw [pj_fold_scripts, pj_fold_config]
  constructor <;> rw [jsGet_nil, Option.none_or]

/-- Claim C5, counterexample: the order of getRequiredPackages output is
first-seen in the supplied selection order, not in registry order — reversing
the selection array of a two-group registry reverses the output. -/
theorem c5_counterexample :
    List.Perm [rgPkgQ, rgPkgP] [rgPkgP, rgPkgQ] ∧
    getRequiredPackages [rgPkgP, rgPkgQ] = ["pkg-p", "pkg-q"] ∧
    getRequiredPackages [rgPkgQ, rgPkgP] = ["pkg-q", "pkg-p"] ∧
    (["pkg-q", "pkg-p"] : List String) ≠ ["pkg-p", "pkg-q"] :=
  ⟨List.Perm.swap _ _ _, rfl, rfl, by decide⟩

/-- Claim C5, amended: getRequiredPackages returns every package declared by
some selected group exactly once (no duplicates), ordered by first
occurrence in the supplied selection order; when the selection preserves
registry order this is first-seen registry order. -/
theorem c5_dedup (groups : List ResolvedGroup) :
    getRequiredPackages groups
        = firstSeen ((groups.map (fun g => g.packages)).flatten) ∧
    (getRequiredPackages groups).Nodup ∧
    ∀ x, x ∈ getRequiredPackages groups ↔ ∃ g ∈ groups, x ∈ g.packages := by
  refine ⟨getRequiredPackages_eq_firstSeen groups, ?_, ?_⟩
  · rw [getRequiredPackages_eq_firstSeen]
    exact nodup_firstSeen _
  · intro x
    rw [getRequiredPackages_eq_firstSeen, mem_firstSeen, List.mem_flatten]
    constructor
    · rintro ⟨l, hl, hx⟩
      rcases List.mem_map.mp hl with ⟨g, hg, rfl⟩
      exact ⟨g, hg, hx⟩
    · rintro ⟨g, hg, hx⟩
      exact ⟨g.packages, List.mem_map.mpr ⟨g, hg, rfl⟩, hx⟩

/-- Claim C4: on the scenario manifest and mods, updatePackageJson sets
scripts.prepare to husky, appends the proposed lint-staged block as a new
top-level entry, and reports added = [prepare script, lint-staged config],
scripts before config, in declaration order. -/
theorem c4_end_to_end :
    updatePackageJson pkgScenario modsScenario
      = ({ scripts := some [("prepare", "husky")]
           rest := [("name", Json.str "x"),
                    ("lint-staged", Json.obj [("*", Json.str "biome check")])] },
         ["prepare script", "lint-staged config"], true) := rfl

/-- Claim C9: on a manifest file whose contents are not valid JSON, the
updatePackageJson run propagates the parse error and leaves the file
untouched. -/
theorem c9_malformed_fatal (raw : String) (mods : ResolvedPackageJsonMods) :
    updatePackageJsonRun (.malformed raw) mods
      = (.malformed raw,
         Except.error "Unexpected token: package.json is not valid JSON") := rfl

/-- Claim C7: for every context with framework nextjs no resolved file is
nginx.conf, and for every context with framework vite-tanstack-router the
resolved Deployment + CI/CD group contains nginx.conf. -/
theorem c7_nginx_conditional (ctx : Ctx) :
    (ctx.framework = Framework.nextjs →
      ∀ rg ∈ resolveGroups ctx, ∀ f ∈ rg.files, f.targetPath ≠ "nginx.conf") ∧
    (ctx.framework = Framework.viteTanstackRouter →
      ∃ rg ∈ resolveGroups ctx, rg.label = "Deployment + CI/CD" ∧
        ∃ f ∈ rg.files, f.targetPath = "nginx.conf") := by
  obtain ⟨s, pm, t, f⟩ := ctx
  cases s <;> cases pm <;> cases t <;> cases f <;> constructor <;>
    first
      | (intro h; exact absurd h (by decide))
      | (intro h; decide)

/-- Witness for claim C7 at the two concrete contexts. -/
theorem c7_witness :
    (∀ rg ∈ resolveGroups ctxNext, ∀ f ∈ rg.files, f.targetPath ≠ "nginx.conf") ∧
    (∃ rg ∈ resolveGroups ctxVite, rg.label = "Deployment + CI/CD" ∧
      ∃ f ∈ rg.files, f.targetPath = "nginx.conf") :=
  ⟨(c7_nginx_conditional ctxNext).1 rfl, (c7_nginx_conditional ctxVite).2 rfl⟩

/-- Claim C8: resolving against a context with a src directory yields the
API Client group with paths src/lib/api-client.ts and src/lib/config.ts;
without one, the same definitions yield lib/api-client.ts and lib/config.ts. -/
theorem c8_api_client_paths (ctx : Ctx) :
    (ctx.srcExists = true →
      ∃ rg ∈ resolveGroups ctx, rg.label = "API Client" ∧
        rg.files.map (fun f => f.targetPath)
          = ["src/lib/api-client.ts", "src/lib/config.ts"]) ∧
    (ctx.srcExists = false →
      ∃ rg ∈ resolveGroups ctx, rg.label = "API Client" ∧
        rg.files.map (fun f => f.targetPath)
          = ["lib/api-client.ts", "lib/config.ts"]) := by
  obtain ⟨s, pm, t, f⟩ := ctx
  cases s <;> cases pm <;> cases t <;> cases f <;> constructor <;>
    first
      | (intro h; exact absurd h (by decide))
      | (intro h; decide)

/-- Witness for claim C8 at the two concrete contexts. -/
theorem c8_witness :
    (∃ rg ∈ resolveGroups ctxVite, rg.label = "API Client" ∧
      rg.files.map (fun f => f.targetPath)
        = ["src/lib/api-client.ts", "src/lib/config.ts"]) ∧
    (∃ rg ∈ resolveGroups ctxNext, rg.label = "API Client" ∧
      rg.files.map (fun f => f.targetPath)
        = ["lib/api-client.ts", "lib/config.ts"]) :=
  ⟨(c8_api_client_paths ctxVite).1 rfl, (c8_api_client_paths ctxNext).2 rfl⟩

/-- Claim C6: every group emitted by the resolver has at least one resolved
file, and a registry group none of whose files survive inclusion filtering
contributes nothing to the output. -/
theorem c6_empty_group_suppression (gs : List TemplateGroup) (ctx : Ctx) :
    (∀ rg ∈ resolveGroupsAux gs ctx, rg.files ≠ []) ∧
    (∀ l1 g l2, gs = l1 ++ g :: l2 → resolveFiles g.files ctx = [] →
      resolveGroupsAux gs ctx = resolveGroupsAux (l1 ++ l2) ctx) := by
  constructor
  · intro rg hrg
    simp only [resolveGroupsAux, List.mem_filterMap] at hrg
    obtain ⟨g, _, hfg⟩ := hrg
    by_cases he : (resolveFiles g.files ctx).isEmpty
    · simp [he] at hfg
    · simp only [he, Bool.false_eq_true, if_false] at hfg
      have hrg2 := Option.some.inj hfg
      intro hnil
      rw [← hrg2] at hnil
      have hfe : resolveFiles g.files ctx = [] := hnil
      rw [hfe] at he
      exact he rfl
  · intro l1 g l2 hgs hempty
    subst hgs
    simp only [resolveGroupsAux]
    rw [List.filterMap_append, List.filterMap_append, List.filterMap_cons]
    have hnone : (resolveFiles g.files ctx).isEmpty = true := by
      rw [hempty]; rfl
    simp [hnone]

/-- Witness for claim C6 on a two-group registry whose first group is fully
filtered out. -/
theorem c6_witness :
    rgKept.files ≠ [] ∧
    resolveGroupsAux [tgDropped, tgKept] ctxNext
      = resolveGroupsAux ([] ++ [tgKept]) ctxNext := by
  have h := c6_empty_group_suppression [tgDropped, tgKept] ctxNext
  refine ⟨h.1 rgKept ?_, h.2 [] tgDropped [tgKept] rfl rfl⟩
  exact (List.mem_singleton.mpr rfl : rgKept ∈ [rgKept])

/-- Claim C2, counterexample: a script whose existing value is the empty
string is JS-falsy, so updatePackageJson overwrites it and reports it as
added, although the key already had a value differing from the proposal. -/
theorem c2_counterexample :
    scriptsGet pkgEmptyScript "prepare" = some "" ∧
    scriptsGet (updatePackageJson pkgEmptyScript modsPrepare).1 "prepare"
      = some "husky" ∧
    (some "husky" : Option String) ≠ some "" ∧
    ("prepare" ++ " script") ∈ (updatePackageJson pkgEmptyScript modsPrepare).2.1 :=
  ⟨rfl, rfl, by decide, by decide⟩

/-- Claim C2, amended: updatePackageJson preserves every existing script
whose value is non-empty (JS-truthy) and every existing top-level config
entry whatever its value, and excludes their descriptors from the added
list; an existing empty-string script value is treated as absent. -/
theorem c2_non_overwrite (pkg : PackageJson) (mods : ResolvedPackageJsonMods) :
    (∀ k s, scriptsGet pkg k = some s → s ≠ "" →
      scriptsGet (updatePackageJson pkg mods).1 k = some s ∧
      (k ++ " script") ∉ (updatePackageJson pkg mods).2.1) ∧
    (∀ k v, jsGet pkg.rest k = some v →
      jsGet (updatePackageJson pkg mods).1.rest k = some v ∧
      (k ++ " config") ∉ (updatePackageJson pkg mods).2.1) := by
  rw [updatePackageJson_eq]
  rcases hs : mods.scripts.foldl scriptStep (upjInit pkg mods, [], false)
    with ⟨pkg1, a1, c1⟩
  constructor
  · intro k s hks hne
    have ht0 : truthyStr (scriptsGet (upjInit pkg mods) k) = true := by
      rw [upjInit_scriptsGet, hks]
      simp [truthyStr, hne]
    have hpres := script_fold_preserve mods.scripts (upjInit pkg mods) [] false k
      ht0 (List.not_mem_nil _)
    rw [hs] at hpres
    obtain ⟨hval, hadd⟩ := hpres
    constructor
    · rw [scriptsGet_congr _ pkg1 k (config_fold_scripts mods.config pkg1 a1 c1)]
      rw [hval]
      rw [upjInit_scriptsGet, hks]
    · intro hmem
      rcases config_fold_added_mem mods.config pkg1 a1 c1 _ hmem with h1 | ⟨e, _, hx⟩
      · exact hadd h1
      · exact config_tag_ne_script_tag e.1 k hx.symm
  · intro k v hkv
    have hrest1 : pkg1.rest = pkg.rest := by
      have hsr := script_fold_rest mods.scripts (upjInit pkg mods) [] false
      rw [hs] at hsr
      rw [show ((pkg1, a1, c1) : PackageJson × List String × Bool).1.rest
            = pkg1.rest from rfl] at hsr
      rw [hsr, upjInit_rest]
    have ha1 : (k ++ " config") ∉ a1 := by
      intro hmem
      have hmem2 : (k ++ " config")
          ∈ (mods.scripts.foldl scriptStep (upjInit pkg mods, [], false)).2.1 := by
        rw [hs]; exact hmem
      rcases script_fold_added_mem mods.scripts (upjInit pkg mods) [] false _ hmem2
        with h1 | ⟨e, _, hx⟩
      · cases h1
      · exact config_tag_ne_script_tag k e.1 hx
    have hkv1 : jsGet pkg1.rest k = some v := by rw [hrest1]; exact hkv
    exact config_fold_preserve mods.config pkg1 a1 c1 k v hkv1 ha1

/-- Witness for claim C2 on a manifest with customised prepare script and
lint-staged config values. -/
theorem c2_witness :
    (scriptsGet (updatePackageJson pkgFrameW modsScenario).1 "prepare"
        = some "custom" ∧
      ("prepare" ++ " script") ∉ (updatePackageJson pkgFrameW modsScenario).2.1) ∧
    (jsGet (updatePackageJson pkgFrameW modsScenario).1.rest "lint-staged"
        = some (Json.str "keep") ∧
      ("lint-staged" ++ " config") ∉ (updatePackageJson pkgFrameW modsScenario).2.1) :=
  ⟨(c2_non_overwrite pkgFrameW modsScenario).1 "prepare" "custom" rfl (by decide),
   (c2_non_overwrite pkgFrameW modsScenario).2 "lint-staged" (Json.str "keep") rfl⟩

/-- Claim C3, counterexample: a proposed script value that is the empty
string is re-added on every run — the second run reports added =
[a script], not an empty list, although it rewrites identical contents. -/
theorem c3_counterexample :
    (updatePackageJsonRun (.wellFormed pkgNoScripts) modsEmptyVal).1
        = ManifestFile.wellFormed pkgEmptyVal ∧
    updatePackageJsonRun (.wellFormed pkgEmptyVal) modsEmptyVal
        = (.wellFormed pkgEmptyVal, Except.ok ["a script"]) ∧
    (["a script"] : List String) ≠ ([] : List String) :=
  ⟨rfl, rfl, by decide⟩

/-- Claim C3, amended: when every proposed script value is non-empty
(JS-truthy), a second updatePackageJson run with the same mods on the file
produced by the first run reports no additions and returns the file
unchanged; in general the manifest is written back exactly when the added
list is non-empty. -/
theorem c3_idempotent (pkg : PackageJson) (mods : ResolvedPackageJsonMods)
    (hv : ∀ kv ∈ mods.scripts, kv.2 ≠ "") :
    updatePackageJsonRun ((updatePackageJsonRun (.wellFormed pkg) mods).1) mods
        = ((updatePackageJsonRun (.wellFormed pkg) mods).1, Except.ok []) ∧
    ((updatePackageJson pkg mods).2.2 = true ↔
      (updatePackageJson pkg mods).2.1 ≠ []) := by
  refine ⟨?_, upj_changed_iff_added pkg mods⟩
  have hidem := upj_idem_state pkg mods hv
  rw [updatePackageJsonRun_wf]
  by_cases hc : (updatePackageJson pkg mods).2.2
  · rw [if_pos hc, updatePackageJsonRun_wf, hidem]
    rfl
  · rw [if_neg hc]
    have hpe : (updatePackageJson pkg mods).1 = pkg :=
      upj_changed_false pkg mods (Bool.not_eq_true _ ▸ hc)
    rw [hpe] at hidem
    rw [updatePackageJsonRun_wf, hidem]
    rfl

/-- Witness for claim C3 on the scenario manifest and mods. -/
theorem c3_witness :
    updatePackageJsonRun
        ((updatePackageJsonRun (.wellFormed pkgScenario) modsScenario).1)
        modsScenario
      = ((updatePackageJsonRun (.wellFormed pkgScenario) modsScenario).1,
         Except.ok []) ∧
    ((updatePackageJson pkgScenario modsScenario).2.2 = true ↔
      (updatePackageJson pkgScenario modsScenario).2.1 ≠ []) :=
  c3_idempotent pkgScenario modsScenario (by decide)

/-- Claim C10: updatePackageJson never alters a top-level entry other than
scripts and the keys proposed in mods.config, never removes an existing
script key, and with empty mods performs no write at all, leaving a
scripts-less manifest without a scripts record. -/
theorem c10_frame (pkg : PackageJson) (mods : ResolvedPackageJsonMods) :
    (∀ k, k ≠ "scripts" → k ∉ mods.config.map (fun e => e.1) →
      jsGet (updatePackageJson pkg mods).1.rest k = jsGet pkg.rest k) ∧
    (∀ k, (scriptsGet pkg k).isSome = true →
      (scriptsGet (updatePackageJson pkg mods).1 k).isSome = true) ∧
    (mods.scripts = [] → mods.config = [] →
      updatePackageJsonRun (.wellFormed pkg) mods
        = (.wellFormed pkg, Except.ok [])) := by
  refine ⟨?_, ?_, ?_⟩
  · intro k _ hkc
    rw [updatePackageJson_eq]
    rcases hs : mods.scripts.foldl scriptStep (upjInit pkg mods, [], false)
      with ⟨pkg1, a1, c1⟩
    have hrest1 : pkg1.rest = pkg.rest := by
      have hsr := script_fold_rest mods.scripts (upjInit pkg mods) [] false
      rw [hs] at hsr
      rw [show ((pkg1, a1, c1) : PackageJson × List String × Bool).1.rest
            = pkg1.rest from rfl] at hsr
      rw [hsr, upjInit_rest]
    have hfr := config_fold_rest_frame mods.config pkg1 a1 c1 k
      (fun e he hek => hkc (List.mem_map.mpr ⟨e, he, hek⟩))
    rw [hfr, hrest1]
  · intro k hk
    rw [updatePackageJson_eq]
    rcases hs : mods.scripts.foldl scriptStep (upjInit pkg mods, [], false)
      with ⟨pkg1, a1, c1⟩
    have h1 : (scriptsGet (upjInit pkg mods) k).isSome = true := by
      rw [upjInit_scriptsGet]; exact hk
    have h2 := script_fold_scriptsGet_isSome mods.scripts (upjInit pkg mods)
      [] false k h1
    rw [hs] at h2
    rw [scriptsGet_congr _ pkg1 k (config_fold_scripts mods.config pkg1 a1 c1)]
    exact h2
  · intro h1 h2
    rcases mods with ⟨ms, mc⟩
    simp only at h1 h2
    subst h1
    subst h2
    rfl

/-- Witness for claim C10 on the customised manifest. -/
theorem c10_witness :
    jsGet (updatePackageJson pkgFrameW modsScenario).1.rest "version"
        = jsGet pkgFrameW.rest "version" ∧
    (scriptsGet (updatePackageJson pkgFrameW modsScenario).1 "prepare").isSome
        = true ∧
    updatePackageJsonRun (.wellFormed pkgFrameW) { scripts := [], config := [] }
        = (.wellFormed pkgFrameW, Except.ok []) :=
  ⟨(c10_frame pkgFrameW modsScenario).1 "version" (by decide) (by decide),
   (c10_frame pkgFrameW modsScenario).2.1 "prepare" (by decide),
   (c10_frame pkgFrameW { scripts := [], config := [] }).2.2 rfl rfl⟩
